import Mathlib

/-
Shallow embedding of the real-time audio feature-extraction and
beat-detection core of the winamp-visualizer repository.

Numbers: JavaScript numeric values that occur in these code paths are
modelled as rationals (all arithmetic here is exact on the inputs the
functions receive); the one non-finite value that can arise, the NaN
produced by the 0/0 divisions in the band splitter and the
zero-crossing rate, is modelled by `Option ℚ` with `none` for NaN.
Timestamps (performance.now()) are passed explicitly as a `now`
argument, and the mutable fields of the FFTAnalyzer class are made an
explicit state record threaded through `analyzeBeat`.
-/

/-- The fields of the `AudioData` record that `FFTAnalyzer.analyzeBeat`
reads (`src/types`): the three normalized band energies. The raw
`frequencyData`/`timeDomainData` arrays are passed separately to the
spectral feature functions. -/
structure AudioData where
  bass : ℚ
  mids : ℚ
  highs : ℚ
deriving DecidableEq

/-- Return record of `FFTAnalyzer.analyzeBeat`. -/
structure BeatDetectionResult where
  isBeat : Bool
  beatIntensity : ℚ
  bpm : ℚ
deriving DecidableEq

namespace FFTAnalyzer

/-- beatThreshold constant of the FFTAnalyzer class. -/
def beatThreshold : ℚ := 1.3

/-- beatMin constant of the FFTAnalyzer class. -/
def beatMin : ℚ := 0.15

/-- historySize constant of the FFTAnalyzer class (~1 second at 60fps). -/
def historySize : ℕ := 43

/-- The mutable state of an FFTAnalyzer instance: lastBeatTime,
beatHistory and energyHistory. -/
structure State where
  lastBeatTime : ℚ
  beatHistory : List ℚ
  energyHistory : List ℚ
deriving DecidableEq

/-- The field initializers of the class: empty histories, lastBeatTime 0. -/
def initState : State :=
  { lastBeatTime := 0, beatHistory := [], energyHistory := [] }

/-- reset(): clears beatHistory, energyHistory and lastBeatTime. -/
def reset (_st : State) : State :=
  { beatHistory := [], energyHistory := [], lastBeatTime := 0 }

/-- The push-then-shift idiom used for both histories:
`h.push(x); if (h.length > cap) h.shift();` (append at the back, drop
the oldest element at the front when over capacity). -/
def pushBounded (h : List ℚ) (x : ℚ) (cap : ℕ) : List ℚ :=
  let h' := h ++ [x]
  if cap < h'.length then h'.tail else h'

/-- Sum of consecutive differences, the `for (i = 1; ...)` loop of
calculateBPM: `totalInterval += h[i] - h[i-1]`. -/
def intervalsSum : List ℚ → ℚ
  | [] => 0
  | [_] => 0
  | a :: b :: rest => (b - a) + intervalsSum (b :: rest)

/-- FFTAnalyzer.calculateBPM, as a function of the beatHistory list:
0 for fewer than 3 recorded beats, otherwise Math.round of
Math.max(60, Math.min(200, 60000 / averageInterval)) when the average
inter-beat interval is positive, and 0 otherwise. -/
def calculateBPM (beatHistory : List ℚ) : ℚ :=
  if beatHistory.length < 3 then 0
  else
    let totalInterval := intervalsSum beatHistory
    let averageInterval := totalInterval / ((beatHistory.length : ℚ) - 1)
    if 0 < averageInterval then
      let bpm := (60 * 1000) / averageInterval
      ((round (max 60 (min 200 bpm)) : ℤ) : ℚ)
    else 0

/-- FFTAnalyzer.analyzeBeat: computes the composite energy, pushes it
onto the bounded energy history, compares it against the rolling mean
(beat iff energy > mean * 1.3, energy > 0.15, and more than 200ms have
passed since lastBeatTime), records the beat time on a flagged beat,
and returns {isBeat, beatIntensity, bpm}. `now` is the value
performance.now() returns during the call. -/
def analyzeBeat (st : State) (audioData : AudioData) (now : ℚ) :
    State × BeatDetectionResult :=
  let currentEnergy :=
    audioData.bass * 0.6 + audioData.mids * 0.3 + audioData.highs * 0.1
  let energyHistory := pushBounded st.energyHistory currentEnergy historySize
  let averageEnergy := energyHistory.sum / (energyHistory.length : ℚ)
  let minBeatInterval : ℚ := 200
  let isBeat : Bool :=
    decide (averageEnergy * beatThreshold < currentEnergy ∧
            beatMin < currentEnergy ∧
            minBeatInterval < now - st.lastBeatTime)
  let st' : State :=
    if isBeat then
      { lastBeatTime := now,
        beatHistory := pushBounded st.beatHistory now 10,
        energyHistory := energyHistory }
    else
      { st with energyHistory := energyHistory }
  let bpm := calculateBPM st'.beatHistory
  (st', { isBeat := isBeat,
          beatIntensity := currentEnergy / max averageEnergy 0.01,
          bpm := bpm })

/-- A sequence of analyzeBeat calls on one analyzer instance, each paired
with the clock value observed during that call; returns the timestamp and
result of every call. -/
def processCalls (st : State) : List (AudioData × ℚ) → List (ℚ × BeatDetectionResult)
  | [] => []
  | (audioData, now) :: rest =>
    let out := analyzeBeat st audioData now
    (now, out.2) :: processCalls out.1 rest

/-- The timestamps of exactly the calls whose result had isBeat = true. -/
def flaggedTimes (st : State) (calls : List (AudioData × ℚ)) : List ℚ :=
  ((processCalls st calls).filter (fun r => r.2.isBeat)).map Prod.fst

/-- The inner loop of FFTAnalyzer.getSpectralRolloff: walk the bins
accumulating energy; return i / bufferLength at the first bin where the
cumulative energy reaches the threshold, and 1 if the loop finishes. -/
def rolloffLoop (bufferLength : ℕ) (threshold : ℚ) : ℕ → ℚ → List ℕ → ℚ
  | _, _, [] => 1
  | i, cumulativeEnergy, v :: rest =>
    let cum := cumulativeEnergy + (v : ℚ)
    if threshold ≤ cum then (i : ℚ) / (bufferLength : ℚ)
    else rolloffLoop bufferLength threshold (i + 1) cum rest

/-- FFTAnalyzer.getSpectralRolloff (default percentage in the source
is 0.85): threshold = totalEnergy * percentage, then the scan above. -/
def getSpectralRolloff (frequencyData : List ℕ) (percentage : ℚ) : ℚ :=
  rolloffLoop frequencyData.length ((frequencyData.sum : ℚ) * percentage) 0 0
    frequencyData

/-- The crossing count of FFTAnalyzer.getZeroCrossingRate: for each
consecutive pair, count a crossing when the samples sit on opposite sides
of the center value 128. -/
def zeroCrossings : List ℕ → ℕ
  | [] => 0
  | [_] => 0
  | a :: b :: rest =>
    (if (a < 128 ∧ 128 ≤ b) ∨ (128 ≤ a ∧ b < 128) then 1 else 0) +
      zeroCrossings (b :: rest)

end FFTAnalyzer

/-- JavaScript division as it occurs in these code paths: every division
with a zero denominator here also has a zero numerator, so it produces
NaN, modelled as `none`. -/
def jsDiv (a b : ℚ) : Option ℚ :=
  if b = 0 then none else some (a / b)

namespace FFTAnalyzer

/-- FFTAnalyzer.getZeroCrossingRate: crossings / timeDomainData.length
(NaN when the array is empty). -/
def getZeroCrossingRate (timeDomainData : List ℕ) : Option ℚ :=
  jsDiv ((zeroCrossings timeDomainData : ℕ) : ℚ) ((timeDomainData.length : ℕ) : ℚ)

end FFTAnalyzer

/-- Result record of AudioProcessor.calculateFrequencyBands. -/
structure FrequencyBands where
  bass : Option ℚ
  mids : Option ℚ
  highs : Option ℚ
deriving DecidableEq

/-- Result record of AudioContextManager.calculateBands. -/
structure Bands where
  bass : Option ℚ
  mids : Option ℚ
  highs : Option ℚ
  average : Option ℚ
deriving DecidableEq

namespace AudioProcessor

/-- AudioProcessor.calculateFrequencyBands: three index loops summing
bins [0, N/8), [N/8, N/2) and [N/2, N) (embedded as take/drop sums),
each divided by its band width and then by 255. The divisions are
`bassSum / bassEnd / 255` etc., so a zero-width band gives 0/0 = NaN. -/
def calculateFrequencyBands (frequencyData : List ℕ) : FrequencyBands :=
  let bufferLength := frequencyData.length
  let bassEnd := bufferLength / 8
  let bassSum : ℚ := ((frequencyData.take bassEnd).sum : ℚ)
  let midsEnd := bufferLength / 2
  let midsSum : ℚ := (((frequencyData.drop bassEnd).take (midsEnd - bassEnd)).sum : ℚ)
  let highsSum : ℚ := ((frequencyData.drop midsEnd).sum : ℚ)
  { bass := (jsDiv bassSum (bassEnd : ℚ)).map (· / 255),
    mids := (jsDiv midsSum ((midsEnd - bassEnd : ℕ) : ℚ)).map (· / 255),
    highs := (jsDiv highsSum ((bufferLength - midsEnd : ℕ) : ℚ)).map (· / 255) }

/-- AudioProcessor.calculateAverage: sum / length / 255 (NaN on an
empty array). -/
def calculateAverage (frequencyData : List ℕ) : Option ℚ :=
  (jsDiv ((frequencyData.sum : ℚ)) ((frequencyData.length : ℕ) : ℚ)).map (· / 255)

end AudioProcessor

namespace AudioContextManager

/-- AudioContextManager.calculateBands: one loop over all bins that
partitions the index range into [0, bassEnd), [bassEnd, midsEnd) and
[midsEnd, N) while also accumulating the total (embedded as take/drop
sums), then `sum / width / 255` for each band and `total / N / 255`
for the average. -/
def calculateBands (frequencyData : List ℕ) : Bands :=
  let bufferLength := frequencyData.length
  let bassEnd := bufferLength / 8
  let midsEnd := bufferLength / 2
  let bassSum : ℚ := ((frequencyData.take bassEnd).sum : ℚ)
  let midsSum : ℚ := (((frequencyData.drop bassEnd).take (midsEnd - bassEnd)).sum : ℚ)
  let highsSum : ℚ := ((frequencyData.drop midsEnd).sum : ℚ)
  let total : ℚ := (frequencyData.sum : ℚ)
  { bass := (jsDiv bassSum (bassEnd : ℚ)).map (· / 255),
    mids := (jsDiv midsSum ((midsEnd - bassEnd : ℕ) : ℚ)).map (· / 255),
    highs := (jsDiv highsSum ((bufferLength - midsEnd : ℕ) : ℚ)).map (· / 255),
    average := (jsDiv total ((bufferLength : ℕ) : ℚ)).map (· / 255) }

end AudioContextManager

namespace FFTAnalyzer

/-- The composite energy formula of the spec: 0.6·bass + 0.3·mids + 0.1·highs. -/
def compositeEnergy (audioData : AudioData) : ℚ :=
  0.6 * audioData.bass + 0.3 * audioData.mids + 0.1 * audioData.highs

/-- The adaptive baseline of the spec: the arithmetic mean of the energy
history after the current composite energy has been appended. -/
def baseline (st : State) (audioData : AudioData) : ℚ :=
  let h := pushBounded st.energyHistory (compositeEnergy audioData) historySize
  h.sum / (h.length : ℚ)

lemma compositeEnergy_eq (audioData : AudioData) :
    audioData.bass * 0.6 + audioData.mids * 0.3 + audioData.highs * 0.1 =
      compositeEnergy audioData := by
  simp only [compositeEnergy]; ring

end FFTAnalyzer

open FFTAnalyzer AudioProcessor AudioContextManager

/-- C1: analyzeBeat computes composite energy 0.6·bass + 0.3·mids + 0.1·highs,
appends it to the energy history (evicting the oldest entry past capacity),
flags a beat iff the energy exceeds 1.3 × the mean of the current history,
exceeds the absolute floor 0.15, and more than 200ms have elapsed since the
last flagged beat, and reports beatIntensity = energy / max(mean, 0.01). -/
theorem analyzeBeat_frame_spec (st : State) (audioData : AudioData) (now : ℚ) :
    (analyzeBeat st audioData now).1.energyHistory =
      pushBounded st.energyHistory (compositeEnergy audioData) historySize ∧
    ((analyzeBeat st audioData now).2.isBeat = true ↔
      (1.3 * baseline st audioData < compositeEnergy audioData ∧
       0.15 < compositeEnergy audioData ∧
       200 < now - st.lastBeatTime)) ∧
    (analyzeBeat st audioData now).2.beatIntensity =
      compositeEnergy audioData / max (baseline st audioData) 0.01 := by
  refine ⟨?_, ?_, ?_⟩ <;>
    simp only [analyzeBeat, compositeEnergy_eq, baseline, beatThreshold, beatMin,
      decide_eq_true_eq]
  · split <;> rfl
  · rw [mul_comm]

/-- C8: reset clears the energy history, the beat history and the last-beat
timestamp, so that any subsequent input sequence produces exactly the
outputs of a freshly constructed analyzer. -/
theorem reset_restores_initial (st : State) (calls : List (AudioData × ℚ)) :
    (reset st).energyHistory = [] ∧ (reset st).beatHistory = [] ∧
    (reset st).lastBeatTime = 0 ∧
    processCalls (reset st) calls = processCalls initState calls :=
  ⟨rfl, rfl, rfl, rfl⟩

/-- C9: on a fresh (or just-reset) analyzer, the first analyzeBeat call with
non-negative band energies never flags a beat: the one-element history makes
the baseline equal the energy itself, so the strict 1.3× test fails. -/
theorem first_call_no_beat (st : State) (audioData : AudioData) (now : ℚ)
    (hb : 0 ≤ audioData.bass) (hm : 0 ≤ audioData.mids)
    (hh : 0 ≤ audioData.highs) :
    (analyzeBeat initState audioData now).2.isBeat = false ∧
    (analyzeBeat (reset st) audioData now).2.isBeat = false := by
  have key : (analyzeBeat initState audioData now).2.isBeat = false := by
    have hE : 0 ≤ audioData.bass * 0.6 + audioData.mids * 0.3 + audioData.highs * 0.1 := by
      nlinarith
    simp only [analyzeBeat, initState, pushBounded, historySize, beatThreshold, beatMin,
      List.nil_append, List.length_cons, List.length_nil, decide_eq_false_iff_not]
    norm_num
    intro h1 _
    exfalso
    nlinarith
  exact ⟨key, key⟩

lemma pushBounded_eq (l : List ℚ) (x : ℚ) (cap : ℕ) (hpos : 0 < cap)
    (h : l.length ≤ cap) :
    pushBounded l x cap = if l.length = cap then l.tail ++ [x] else l ++ [x] := by
  unfold pushBounded
  simp only [List.length_append, List.length_cons, List.length_nil]
  by_cases hc : l.length = cap
  · have hlt : cap < l.length + (0 + 1) := by omega
    rw [if_pos hlt, if_pos hc]
    rcases l with _ | ⟨a, t⟩
    · simp at hc; omega
    · rfl
  · have hlt : ¬ cap < l.length + (0 + 1) := by omega
    rw [if_neg hlt, if_neg hc]

/-- C10: a call that does not flag a beat leaves beatHistory and
lastBeatTime untouched; the only state change is the appended composite
energy, evicting the oldest entry when the history already holds 43. -/
theorem no_beat_frame_effect (st : State) (audioData : AudioData) (now : ℚ)
    (hcap : st.energyHistory.length ≤ 43)
    (hnb : (analyzeBeat st audioData now).2.isBeat = false) :
    (analyzeBeat st audioData now).1.beatHistory = st.beatHistory ∧
    (analyzeBeat st audioData now).1.lastBeatTime = st.lastBeatTime ∧
    (analyzeBeat st audioData now).1.energyHistory =
      (if st.energyHistory.length = 43
       then st.energyHistory.tail ++ [compositeEnergy audioData]
       else st.energyHistory ++ [compositeEnergy audioData]) := by
  have hpush := pushBounded_eq st.energyHistory (compositeEnergy audioData)
    historySize (by norm_num [historySize]) (by simpa [historySize] using hcap)
  simp only [analyzeBeat, compositeEnergy_eq, decide_eq_false_iff_not] at hnb
  simp only [analyzeBeat, compositeEnergy_eq]
  rw [if_neg (fun h => hnb (of_decide_eq_true h))]
  exact ⟨rfl, rfl, hpush⟩

/-- C3 counterexample: with recorded beats at 0ms, 700ms and 1400ms the mean
inter-beat interval is 700ms, so 60000/700 clamped to [60,200] is 600/7
(≈85.71), but calculateBPM returns the rounded value 86, not 600/7. -/
theorem calculateBPM_counterexample :
    calculateBPM [0, 700, 1400] = 86 ∧
    calculateBPM [0, 700, 1400] ≠ max 60 (min 200 (60000 / 700)) := by
  constructor <;> norm_num [calculateBPM, intervalsSum, round_eq]

/-- C5 counterexample: on a length-4 frame the bass band [0, 4/8) is empty,
so the band splitters compute 0/0 (NaN, modelled none) rather than 0; the
zero-crossing rate of an empty waveform is likewise 0/0, not 0. -/
theorem degenerate_counterexample :
    (AudioContextManager.calculateBands [1, 2, 3, 4]).bass = none ∧
    (AudioContextManager.calculateBands [1, 2, 3, 4]).bass ≠ some 0 ∧
    (calculateFrequencyBands [1, 2, 3, 4]).bass = none ∧
    getZeroCrossingRate [] = none ∧
    getZeroCrossingRate [] ≠ some 0 := by
  refine ⟨?_, ?_, ?_, ?_, ?_⟩ <;> decide

/-- C6 counterexample: on the all-zero frame [0,0,0,0] the threshold
0.85 × 0 = 0 is already reached at bin 0, so getSpectralRolloff returns
0, not the claimed 1. -/
theorem rolloff_all_zero_counterexample :
    getSpectralRolloff [0, 0, 0, 0] 0.85 = 0 ∧
    getSpectralRolloff [0, 0, 0, 0] 0.85 ≠ 1 := by
  constructor <;> norm_num [getSpectralRolloff, rolloffLoop]

/-- C7 counterexample: for the monotonically increasing non-zero frame
[1,2,3,4] at percentage 1.0 the cumulative energy reaches the total at the
last bin (index 3), so getSpectralRolloff returns 3/4, not 1. -/
theorem rolloff_full_counterexample :
    getSpectralRolloff [1, 2, 3, 4] 1 = 3 / 4 ∧ ((3 : ℚ) / 4) ≠ 1 := by
  constructor <;> norm_num [getSpectralRolloff, rolloffLoop]

lemma analyzeBeat_of_isBeat (st : State) (audioData : AudioData) (now : ℚ)
    (h : (analyzeBeat st audioData now).2.isBeat = true) :
    (analyzeBeat st audioData now).1.lastBeatTime = now ∧
    200 < now - st.lastBeatTime := by
  simp only [analyzeBeat, decide_eq_true_eq] at h ⊢
  rw [if_pos h]
  exact ⟨rfl, h.2.2⟩

lemma analyzeBeat_of_not_isBeat (st : State) (audioData : AudioData) (now : ℚ)
    (h : (analyzeBeat st audioData now).2.isBeat = false) :
    (analyzeBeat st audioData now).1.lastBeatTime = st.lastBeatTime := by
  simp only [analyzeBeat, decide_eq_false_iff_not] at h
  simp only [analyzeBeat]
  rw [if_neg (fun hc => h (of_decide_eq_true hc))]

lemma flaggedTimes_cons (st : State) (audioData : AudioData) (now : ℚ)
    (rest : List (AudioData × ℚ)) :
    flaggedTimes st ((audioData, now) :: rest) =
      (if (analyzeBeat st audioData now).2.isBeat then [now] else []) ++
        flaggedTimes (analyzeBeat st audioData now).1 rest := by
  simp only [flaggedTimes, processCalls, List.filter_cons]
  by_cases h : (analyzeBeat st audioData now).2.isBeat <;> simp [h]

lemma flaggedTimes_debounced (calls : List (AudioData × ℚ)) : ∀ st : State,
    List.Pairwise (fun t1 t2 : ℚ => 200 < t2 - t1) (flaggedTimes st calls) ∧
    ∀ t ∈ flaggedTimes st calls, st.lastBeatTime + 200 < t := by
  induction calls with
  | nil => intro st; simp [flaggedTimes, processCalls]
  | cons c rest ih =>
    intro st
    obtain ⟨audioData, now⟩ := c
    rw [flaggedTimes_cons]
    by_cases hb : (analyzeBeat st audioData now).2.isBeat
    · obtain ⟨hlast, hgap⟩ := analyzeBeat_of_isBeat st audioData now hb
      obtain ⟨ihp, ihlast⟩ := ih (analyzeBeat st audioData now).1
      rw [hlast] at ihlast
      rw [if_pos hb]
      refine ⟨?_, ?_⟩
      · refine List.pairwise_cons.mpr ⟨?_, ihp⟩
        intro t ht
        have := ihlast t ht
        linarith
      · intro t ht
        rcases List.mem_cons.mp ht with rfl | ht'
        · linarith
        · have := ihlast t ht'
          linarith
    · have hb' : (analyzeBeat st audioData now).2.isBeat = false :=
        Bool.eq_false_iff.mpr hb
      have hlast := analyzeBeat_of_not_isBeat st audioData now hb'
      obtain ⟨ihp, ihlast⟩ := ih (analyzeBeat st audioData now).1
      rw [hlast] at ihlast
      rw [if_neg hb]
      exact ⟨ihp, by simpa using ihlast⟩

/-- C2: for any initial analyzer state and any sequence of analyzeBeat
calls at strictly increasing clock timestamps, no two calls whose results
have isBeat = true lie within 200ms of each other. -/
theorem beat_debounce (st : State) (calls : List (AudioData × ℚ))
    (_hmono : List.Chain' (· < ·) (calls.map Prod.snd)) :
    List.Pairwise (fun t1 t2 : ℚ => 200 < t2 - t1) (flaggedTimes st calls) :=
  (flaggedTimes_debounced calls st).1

/-- C2 witness: the debounce theorem applied to a concrete two-call
sequence at times 100 and 250. -/
theorem beat_debounce_witness :
    List.Chain' (· < ·)
      (([((⟨1, 1, 1⟩ : AudioData), (100 : ℚ)), (⟨0, 0, 0⟩, 250)]).map Prod.snd) ∧
    List.Pairwise (fun t1 t2 : ℚ => 200 < t2 - t1)
      (flaggedTimes initState [((⟨1, 1, 1⟩ : AudioData), (100 : ℚ)), (⟨0, 0, 0⟩, 250)]) :=
  ⟨by norm_num,
   beat_debounce initState [((⟨1, 1, 1⟩ : AudioData), (100 : ℚ)), (⟨0, 0, 0⟩, 250)]
    (by norm_num)⟩

lemma intervalsSum_pos : ∀ (a b : ℚ) (rest : List ℚ),
    List.Chain' (· < ·) (a :: b :: rest) → 0 < intervalsSum (a :: b :: rest) := by
  intro a b rest
  induction rest generalizing a b with
  | nil =>
    intro h
    have hab : a < b := (List.chain'_cons.mp h).1
    simp only [intervalsSum]
    linarith
  | cons c rest ih =>
    intro h
    have hab : a < b := (List.chain'_cons.mp h).1
    have htail := ih b c (List.chain'_cons.mp h).2
    simp only [intervalsSum] at htail ⊢
    linarith

lemma round_clamp_mem (x : ℚ) :
    60 ≤ round (max 60 (min 200 x)) ∧ round (max 60 (min 200 x)) ≤ 200 := by
  have h1 : (60 : ℚ) ≤ max 60 (min 200 x) := le_max_left _ _
  have h2 : max 60 (min 200 x) ≤ 200 := max_le (by norm_num) (min_le_left _ _)
  constructor
  · rw [round_eq]
    exact Int.le_floor.mpr (by push_cast; linarith)
  · rw [round_eq]
    have := Int.floor_lt.mpr (show max 60 (min 200 x) + 1 / 2 < ((201 : ℤ) : ℚ) by
      push_cast; linarith)
    omega

/-- C3 amended: calculateBPM returns 0 for fewer than 3 recorded beat
timestamps; for at least 3 strictly increasing timestamps it returns the
ROUNDING of 60000 / (mean consecutive inter-beat interval) clamped to
[60,200] (the claim omitted the rounding); and the result is always either
0 or an integer in [60,200]. -/
theorem calculateBPM_spec :
    (∀ h : List ℚ, h.length < 3 → calculateBPM h = 0) ∧
    (∀ h : List ℚ, 3 ≤ h.length → List.Chain' (· < ·) h →
      calculateBPM h =
        ((round (max 60 (min 200
          (60000 / (intervalsSum h / ((h.length : ℚ) - 1))))) : ℤ) : ℚ)) ∧
    (∀ h : List ℚ, calculateBPM h = 0 ∨
      ∃ z : ℤ, calculateBPM h = (z : ℚ) ∧ 60 ≤ z ∧ z ≤ 200) := by
  refine ⟨?_, ?_, ?_⟩
  · intro h hlen
    simp [calculateBPM, hlen]
  · intro h hlen hchain
    rcases h with _ | ⟨a, t⟩
    · simp at hlen
    rcases t with _ | ⟨b, t⟩
    · simp at hlen
    have hpos := intervalsSum_pos a b t hchain
    have hnum : (0 : ℚ) < (((a :: b :: t).length : ℚ) - 1) := by
      have h3 : (3 : ℚ) ≤ ((a :: b :: t).length : ℚ) := by exact_mod_cast hlen
      linarith
    have havg : 0 < intervalsSum (a :: b :: t) / (((a :: b :: t).length : ℚ) - 1) :=
      div_pos hpos hnum
    simp only [calculateBPM]
    rw [if_neg (not_lt.mpr hlen), if_pos havg]
    norm_num
  · intro h
    by_cases h3 : h.length < 3
    · left; simp [calculateBPM, h3]
    · by_cases havg : 0 < intervalsSum h / ((h.length : ℚ) - 1)
      · right
        refine ⟨round (max 60 (min 200 ((60 * 1000) /
          (intervalsSum h / ((h.length : ℚ) - 1))))), ?_, (round_clamp_mem _).1,
          (round_clamp_mem _).2⟩
        simp only [calculateBPM]
        rw [if_neg h3, if_pos havg]
      · left
        simp only [calculateBPM]
        rw [if_neg h3, if_neg havg]

/-- C3 witness: the amended theorem applied to the concrete beat history
[0, 700, 1400] (mean interval 700ms), whose BPM is round(600/7) = 86. -/
theorem calculateBPM_spec_witness :
    calculateBPM [0, 700, 1400] = 86 ∧
    (calculateBPM [0, 700, 1400] = 0 ∨
      ∃ z : ℤ, calculateBPM [0, 700, 1400] = (z : ℚ) ∧ 60 ≤ z ∧ z ≤ 200) := by
  constructor
  · have h := calculateBPM_spec.2.1 [0, 700, 1400] (by norm_num) (by norm_num)
    rw [h]
    norm_num [intervalsSum, round_eq]
  · exact calculateBPM_spec.2.2 [0, 700, 1400]

/-- C5 amended: degenerate inputs raise no fault, but they do not all
produce the default 0: a frame shorter than 8 bins has an empty bass band
and both band splitters compute 0/0 = NaN (none) for it, the empty-frame
average and the empty-waveform zero-crossing rate are likewise NaN, while
spectral rolloff on an empty frame does return 1. -/
theorem degenerate_defaults :
    (∀ frequencyData : List ℕ, frequencyData.length < 8 →
      (AudioContextManager.calculateBands frequencyData).bass = none ∧
      (calculateFrequencyBands frequencyData).bass = none) ∧
    getZeroCrossingRate [] = none ∧
    calculateAverage [] = none ∧
    AudioContextManager.calculateBands [] =
      { bass := none, mids := none, highs := none, average := none } ∧
    (∀ percentage : ℚ, getSpectralRolloff [] percentage = 1) := by
  refine ⟨?_, by decide, by decide, by decide, fun percentage => rfl⟩
  intro frequencyData hshort
  have h8 : frequencyData.length / 8 = 0 := Nat.div_eq_of_lt hshort
  constructor <;>
    simp [AudioContextManager.calculateBands, calculateFrequencyBands, jsDiv, h8]

/-- C5 witness: the amended theorem applied to the concrete length-1
frame [5]. -/
theorem degenerate_defaults_witness :
    (AudioContextManager.calculateBands [5]).bass = none :=
  (degenerate_defaults.1 [5] (by norm_num)).1

lemma rolloffLoop_hit (N : ℕ) (th : ℚ) :
    ∀ (l : List ℕ) (k i : ℕ) (cum : ℚ), k < l.length →
      (∀ j, j < k → cum + ((l.take (j + 1)).sum : ℚ) < th) →
      th ≤ cum + ((l.take (k + 1)).sum : ℚ) →
      rolloffLoop N th i cum l = ((i + k : ℕ) : ℚ) / (N : ℚ) := by
  intro l
  induction l with
  | nil => intro k i cum hk; simp at hk
  | cons v rest ih =>
    intro k i cum hk hlt hge
    simp only [rolloffLoop]
    by_cases hth : th ≤ cum + (v : ℚ)
    · rw [if_pos hth]
      cases k with
      | zero => simp
      | succ k' =>
        exfalso
        have := hlt 0 (Nat.succ_pos _)
        simp only [List.take_succ_cons, List.take_zero, List.sum_cons,
          List.sum_nil, add_zero] at this
        linarith
    · rw [if_neg hth]
      cases k with
      | zero =>
        exfalso
        apply hth
        simpa [List.take_succ_cons] using hge
      | succ k' =>
        have hk' : k' < rest.length := by simpa using hk
        have hlt' : ∀ j, j < k' → (cum + (v : ℚ)) + ((rest.take (j + 1)).sum : ℚ) < th := by
          intro j hj
          have := hlt (j + 1) (by omega)
          simp only [List.take_succ_cons, List.sum_cons, Nat.cast_add] at this
          linarith
        have hge' : th ≤ (cum + (v : ℚ)) + ((rest.take (k' + 1)).sum : ℚ) := by
          simp only [List.take_succ_cons, List.sum_cons, Nat.cast_add] at hge
          linarith
        rw [ih k' (i + 1) (cum + (v : ℚ)) hk' hlt' hge']
        congr 1
        push_cast
        ring

lemma rolloffLoop_miss (N : ℕ) (th : ℚ) :
    ∀ (l : List ℕ) (i : ℕ) (cum : ℚ),
      (∀ k, k < l.length → cum + ((l.take (k + 1)).sum : ℚ) < th) →
      rolloffLoop N th i cum l = 1 := by
  intro l
  induction l with
  | nil => intro i cum _; rfl
  | cons v rest ih =>
    intro i cum hlt
    simp only [rolloffLoop]
    have h0 := hlt 0 (Nat.succ_pos _)
    simp only [List.take_succ_cons, List.take_zero, List.sum_cons,
      List.sum_nil, add_zero] at h0
    rw [if_neg (by linarith)]
    apply ih
    intro k hk
    have := hlt (k + 1) (by simpa using Nat.succ_lt_succ hk)
    simp only [List.take_succ_cons, List.sum_cons, Nat.cast_add] at this
    linarith

/-- C6 amended: getSpectralRolloff returns i/N at the SMALLEST bin index i
whose cumulative energy reaches percentage × total (first conjunct), and 1
only when no bin reaches the threshold (second conjunct); on an all-zero
frame the threshold 0 is reached already at bin 0, so the result is 0,
not the claimed 1 (third conjunct). -/
theorem rolloff_spec :
    (∀ (frequencyData : List ℕ) (percentage : ℚ) (i : ℕ),
      i < frequencyData.length →
      (∀ j, j < i → ((frequencyData.take (j + 1)).sum : ℚ) <
        (frequencyData.sum : ℚ) * percentage) →
      (frequencyData.sum : ℚ) * percentage ≤
        ((frequencyData.take (i + 1)).sum : ℚ) →
      getSpectralRolloff frequencyData percentage =
        (i : ℚ) / (frequencyData.length : ℚ)) ∧
    (∀ (frequencyData : List ℕ) (percentage : ℚ),
      (∀ i, i < frequencyData.length → ((frequencyData.take (i + 1)).sum : ℚ) <
        (frequencyData.sum : ℚ) * percentage) →
      getSpectralRolloff frequencyData percentage = 1) ∧
    (∀ frequencyData : List ℕ, frequencyData ≠ [] →
      (∀ x ∈ frequencyData, x = 0) →
      ∀ percentage : ℚ, getSpectralRolloff frequencyData percentage = 0) := by
  refine ⟨?_, ?_, ?_⟩
  · intro fd p i hi hlt hge
    have h := rolloffLoop_hit fd.length ((fd.sum : ℚ) * p) fd i 0 0 hi
      (fun j hj => by simpa using hlt j hj) (by simpa using hge)
    simpa [getSpectralRolloff] using h
  · intro fd p hlt
    exact rolloffLoop_miss fd.length ((fd.sum : ℚ) * p) fd 0 0
      (fun k hk => by simpa using hlt k hk)
  · intro fd hne hall p
    rcases fd with _ | ⟨v, rest⟩
    · exact absurd rfl hne
    have hv : v = 0 := hall v (List.mem_cons_self _ _)
    have hsum : (v :: rest).sum = 0 := List.sum_eq_zero hall
    have hth : (((v :: rest).sum : ℕ) : ℚ) * p = 0 := by
      rw [hsum]; norm_num
    rw [show getSpectralRolloff (v :: rest) p =
        rolloffLoop (v :: rest).length ((((v :: rest).sum : ℕ) : ℚ) * p) 0 0
          (v :: rest) from rfl, hth]
    simp [rolloffLoop, hv]

/-- C6 witness: the characterization applied to the frame [1,1,1,1] at
percentage 1/2, whose cumulative energy first reaches half the total at
bin 1, giving rolloff 1/4. -/
theorem rolloff_spec_witness :
    getSpectralRolloff [1, 1, 1, 1] (1 / 2) = 1 / 4 := by
  have h := rolloff_spec.1 [1, 1, 1, 1] (1 / 2) 1 (by norm_num)
    (by intro j hj; interval_cases j; norm_num)
    (by norm_num)
  simpa using h

lemma sum_drop_ne_zero_of_sorted (fd : List ℕ) (hsorted : fd.Sorted (· ≤ ·))
    (hsum : fd.sum ≠ 0) (j : ℕ) (hj : j + 1 < fd.length) :
    (fd.drop (j + 1)).sum ≠ 0 := by
  intro hdrop0
  have halld : ∀ x ∈ fd.drop (j + 1), x = 0 := List.sum_eq_zero_iff.mp hdrop0
  have hp : List.Pairwise (· ≤ ·) (fd.take (j + 1) ++ fd.drop (j + 1)) := by
    rw [List.take_append_drop]; exact hsorted
  have hrel := (List.pairwise_append.mp hp).2.2
  have hdne : fd.drop (j + 1) ≠ [] := by
    intro hnil
    have := congrArg List.length hnil
    simp [List.length_drop] at this
    omega
  obtain ⟨b, hb⟩ := List.exists_mem_of_ne_nil _ hdne
  have halltake : ∀ x ∈ fd.take (j + 1), x = 0 := by
    intro x hx
    have hxb := hrel x hx b hb
    have hb0 := halld b hb
    omega
  apply hsum
  calc fd.sum = (fd.take (j + 1) ++ fd.drop (j + 1)).sum := by
        rw [List.take_append_drop]
    _ = (fd.take (j + 1)).sum + (fd.drop (j + 1)).sum := List.sum_append
    _ = 0 := by rw [List.sum_eq_zero halltake, hdrop0]

/-- C7 amended: for a non-zero frame with monotonically non-decreasing
magnitudes, rolloff at percentage 1.0 returns (N-1)/N — the fractional
position of the LAST bin, at which the scan hits the full-energy
threshold — not 1; a frame with its energy concentrated in the early
bins returns a strictly smaller fraction. -/
theorem rolloff_full_spectrum :
    (∀ frequencyData : List ℕ, frequencyData ≠ [] →
      frequencyData.Sorted (· ≤ ·) → frequencyData.sum ≠ 0 →
      getSpectralRolloff frequencyData 1 =
        ((frequencyData.length - 1 : ℕ) : ℚ) / (frequencyData.length : ℚ)) ∧
    getSpectralRolloff [255, 0, 0, 0] 1 < getSpectralRolloff [1, 2, 3, 4] 1 := by
  constructor
  · intro fd hne hsorted hsum
    have hN : 0 < fd.length := List.length_pos.mpr hne
    have hhit := rolloffLoop_hit fd.length ((fd.sum : ℚ) * 1) fd
      (fd.length - 1) 0 0 (by omega)
      (fun j hj => by
        have hjlt : j + 1 < fd.length := by omega
        have hdrop := sum_drop_ne_zero_of_sorted fd hsorted hsum j hjlt
        have hsplit : (fd.take (j + 1)).sum + (fd.drop (j + 1)).sum = fd.sum := by
          rw [← List.sum_append, List.take_append_drop]
        have hlt : (fd.take (j + 1)).sum < fd.sum := by omega
        rw [mul_one, zero_add]
        exact_mod_cast hlt)
      (by
        have hidx : fd.length - 1 + 1 = fd.length := by omega
        rw [mul_one, zero_add, hidx, List.take_length])
    simpa [getSpectralRolloff] using hhit
  · norm_num [getSpectralRolloff, rolloffLoop]

/-- C7 witness: the amended theorem applied to the concrete monotone
frame [1,2,3,4], whose rolloff at percentage 1 is 3/4. -/
theorem rolloff_full_spectrum_witness :
    ([1, 2, 3, 4] : List ℕ).Sorted (· ≤ ·) ∧
    getSpectralRolloff [1, 2, 3, 4] 1 = 3 / 4 := by
  refine ⟨by decide, ?_⟩
  have h := rolloff_full_spectrum.1 [1, 2, 3, 4] (List.cons_ne_nil _ _) (by decide)
    (by norm_num)
  simpa using h

/-- The Band Splitter contract as the spec words it: each band is the sum
of its bin range divided by (band width × 255), and the average is the
total divided by (N × 255). -/
def specBands (frequencyData : List ℕ) : Bands :=
  let N := frequencyData.length
  let bassEnd := N / 8
  let midsEnd := N / 2
  { bass := some (((frequencyData.take bassEnd).sum : ℚ) /
      ((bassEnd : ℚ) * 255)),
    mids := some ((((frequencyData.drop bassEnd).take (midsEnd - bassEnd)).sum : ℚ) /
      (((midsEnd - bassEnd : ℕ) : ℚ) * 255)),
    highs := some (((frequencyData.drop midsEnd).sum : ℚ) /
      (((N - midsEnd : ℕ) : ℚ) * 255)),
    average := some ((frequencyData.sum : ℚ) / ((N : ℚ) * 255)) }

lemma jsDiv_div255 (a b : ℚ) (hb : b ≠ 0) :
    (jsDiv a b).map (· / 255) = some (a / (b * 255)) := by
  simp [jsDiv, hb, div_div]

lemma replicate_ratio (k : ℕ) (hk : k ≠ 0) :
    (((List.replicate k 255).sum : ℕ) : ℚ) / ((k : ℚ) * 255) = 1 := by
  rw [List.sum_const_nat]
  push_cast
  exact div_self (mul_ne_zero (Nat.cast_ne_zero.mpr hk) (by norm_num))

/-- C4: for frames of length N ≥ 8 with samples in [0,255], both band
splitters return band sums normalized by (band width × 255) over the
ranges [0,N/8), [N/8,N/2), [N/2,N), and the average over all N bins; an
all-zero frame yields all values 0 and an all-255 frame yields exactly 1. -/
theorem bands_spec (frequencyData : List ℕ) (hN : 8 ≤ frequencyData.length)
    (_hrange : ∀ x ∈ frequencyData, x ≤ 255) :
    AudioContextManager.calculateBands frequencyData = specBands frequencyData ∧
    calculateFrequencyBands frequencyData =
      { bass := (specBands frequencyData).bass,
        mids := (specBands frequencyData).mids,
        highs := (specBands frequencyData).highs } ∧
    calculateAverage frequencyData = (specBands frequencyData).average ∧
    ((∀ x ∈ frequencyData, x = 0) →
      AudioContextManager.calculateBands frequencyData =
        { bass := some 0, mids := some 0, highs := some 0, average := some 0 }) ∧
    ((∀ x ∈ frequencyData, x = 255) →
      AudioContextManager.calculateBands frequencyData =
        { bass := some 1, mids := some 1, highs := some 1, average := some 1 }) := by
  have hb : 0 < frequencyData.length / 8 := Nat.div_pos (by omega) (by norm_num)
  have hm : frequencyData.length / 8 < frequencyData.length / 2 := by
    have h1 : frequencyData.length / 8 = frequencyData.length / 2 / 4 := by
      rw [Nat.div_div_eq_div_mul]
    have h2 : 0 < frequencyData.length / 2 := Nat.div_pos (by omega) (by norm_num)
    rw [h1]
    exact Nat.div_lt_self h2 (by norm_num)
  have hh : frequencyData.length / 2 < frequencyData.length :=
    Nat.div_lt_self (by omega) (by norm_num)
  have hbq : ((frequencyData.length / 8 : ℕ) : ℚ) ≠ 0 :=
    Nat.cast_ne_zero.mpr (by omega)
  have hmq : ((frequencyData.length / 2 - frequencyData.length / 8 : ℕ) : ℚ) ≠ 0 :=
    Nat.cast_ne_zero.mpr (by omega)
  have hhq : ((frequencyData.length - frequencyData.length / 2 : ℕ) : ℚ) ≠ 0 :=
    Nat.cast_ne_zero.mpr (by omega)
  have hNq : ((frequencyData.length : ℕ) : ℚ) ≠ 0 :=
    Nat.cast_ne_zero.mpr (by omega)
  have hmain : AudioContextManager.calculateBands frequencyData =
      specBands frequencyData := by
    simp only [AudioContextManager.calculateBands, specBands]
    rw [jsDiv_div255 _ _ hbq, jsDiv_div255 _ _ hmq, jsDiv_div255 _ _ hhq,
      jsDiv_div255 _ _ hNq]
  have hproc : calculateFrequencyBands frequencyData =
      { bass := (specBands frequencyData).bass,
        mids := (specBands frequencyData).mids,
        highs := (specBands frequencyData).highs } := by
    simp only [calculateFrequencyBands, specBands]
    rw [jsDiv_div255 _ _ hbq, jsDiv_div255 _ _ hmq, jsDiv_div255 _ _ hhq]
  have havg : calculateAverage frequencyData = (specBands frequencyData).average := by
    simp only [calculateAverage, specBands]
    rw [jsDiv_div255 _ _ hNq]
  refine ⟨hmain, hproc, havg, ?_, ?_⟩
  · intro hz
    rw [hmain]
    have h1 : (frequencyData.take (frequencyData.length / 8)).sum = 0 :=
      List.sum_eq_zero fun x hx => hz x (List.mem_of_mem_take hx)
    have h2 : ((frequencyData.drop (frequencyData.length / 8)).take
        (frequencyData.length / 2 - frequencyData.length / 8)).sum = 0 :=
      List.sum_eq_zero fun x hx =>
        hz x (List.mem_of_mem_drop (List.mem_of_mem_take hx))
    have h3 : (frequencyData.drop (frequencyData.length / 2)).sum = 0 :=
      List.sum_eq_zero fun x hx => hz x (List.mem_of_mem_drop hx)
    have h4 : frequencyData.sum = 0 := List.sum_eq_zero hz
    simp [specBands, h1, h2, h3, h4]
  · intro h255
    rw [hmain]
    have hrep := List.eq_replicate_of_mem h255
    have hble : frequencyData.length / 8 ≤ frequencyData.length := Nat.div_le_self _ _
    have hmle : frequencyData.length / 2 ≤ frequencyData.length := Nat.div_le_self _ _
    have ht1 : frequencyData.take (frequencyData.length / 8) =
        List.replicate (frequencyData.length / 8) 255 := by
      rw [hrep]
      simp [List.take_replicate, Nat.min_eq_left hble,
        List.length_replicate]
    have ht2 : (frequencyData.drop (frequencyData.length / 8)).take
        (frequencyData.length / 2 - frequencyData.length / 8) =
        List.replicate (frequencyData.length / 2 - frequencyData.length / 8) 255 := by
      rw [hrep]
      simp [List.drop_replicate, List.take_replicate, List.length_replicate]
      omega
    have ht3 : frequencyData.drop (frequencyData.length / 2) =
        List.replicate (frequencyData.length - frequencyData.length / 2) 255 := by
      rw [hrep]
      simp [List.drop_replicate, List.length_replicate]
    have htotal : frequencyData.sum = frequencyData.length * 255 := by
      conv_lhs => rw [hrep]
      rw [List.sum_const_nat]
    simp only [specBands, ht1, ht2, ht3, htotal]
    rw [show ((frequencyData.length * 255 : ℕ) : ℚ) =
      ((List.replicate frequencyData.length (255:ℕ)).sum : ℚ) by
        rw [List.sum_const_nat]]
    rw [replicate_ratio _ (by omega), replicate_ratio _ (by omega),
      replicate_ratio _ (by omega), replicate_ratio _ (by omega)]

/-- C4 witness: the theorem applied to the concrete all-255 frame of
length 8, for which every band value and the average are exactly 1. -/
theorem bands_spec_witness :
    AudioContextManager.calculateBands (List.replicate 8 255) =
      { bass := some 1, mids := some 1, highs := some 1, average := some 1 } :=
  (bands_spec (List.replicate 8 255) (by norm_num) (by decide)).2.2.2.2 (by decide)

/-- C9 witness: the first-call theorem applied to the concrete input
{bass 1, mids 1, highs 1} observed at time 300. -/
theorem first_call_no_beat_witness :
    (analyzeBeat initState ⟨1, 1, 1⟩ 300).2.isBeat = false :=
  (first_call_no_beat initState ⟨1, 1, 1⟩ 300 (by norm_num) (by norm_num)
    (by norm_num)).1

/-- C10 witness: the frame-effect theorem applied to a fresh state and the
silent input {bass 0, mids 0, highs 0} at time 0, which flags no beat. -/
theorem no_beat_frame_effect_witness :
    (analyzeBeat initState ⟨0, 0, 0⟩ 0).1.beatHistory = initState.beatHistory ∧
    (analyzeBeat initState ⟨0, 0, 0⟩ 0).1.lastBeatTime = initState.lastBeatTime :=
  ⟨(no_beat_frame_effect initState ⟨0, 0, 0⟩ 0 (by norm_num [initState])
      (by norm_num [analyzeBeat, initState, pushBounded, historySize, beatMin])).1,
   (no_beat_frame_effect initState ⟨0, 0, 0⟩ 0 (by norm_num [initState])
      (by norm_num [analyzeBeat, initState, pushBounded, historySize, beatMin])).2.1⟩
